import Mathlib

/-!
# Verification of the llmexportui selection/visibility engine

Shallow embedding of the Python sources `path_utils.py`, `filter_engine.py`,
`tree_manager.py` and `export_generator.py` of the repository, together with
theorems settling the specification claims.

Modelling conventions:
* The embedding models the Windows platform, which is the platform the code's
  path handling is written for: `normalize_path` canonicalizes every separator
  to a backslash ("Normalizar a backslash (estilo Windows)"), `os.path.sep`
  is `'\'`, `os.path.join` joins with `'\'`, and `fnmatch.fnmatch` applies
  `os.path.normcase` (lower-casing and `'/'` to `'\'`).
* Python `str` becomes `String`; string primitives (`split`, `startswith`,
  `endswith`, `strip`, `replace`) are given executable `List Char`
  implementations, structurally recursive so that every definition evaluates
  by kernel reduction.
* Python `set` objects become `Finset String`.
* The filesystem is modelled explicitly: a directory listing is a
  `List FSEntry`, and the visible-file walk of `FilterEngine._refresh_cache`
  receives the list of relative file paths the walk would produce.
* Qt check states (`Qt.CheckState`) become the three-valued `CheckState`;
  a `QStandardItem` becomes an `Item` (display name, relative path stored
  under `UserRole`, check state, children rows).
-/

/-! ## String primitives (re-implemented on `List Char` for reducibility) -/

/-- Python `a.startswith(b)` on character lists. -/
def listStartsWith : List Char → List Char → Bool
  | _, [] => true
  | [], _ :: _ => false
  | c :: cs, p :: ps => c == p && listStartsWith cs ps

/-- Python `a.endswith(b)` on character lists. -/
def listEndsWith (s suffixChars : List Char) : Bool :=
  listStartsWith s.reverse suffixChars.reverse

/-- Python `s.split(sep)` for a one-character separator `sep`. -/
def splitOnChar (sep : Char) : List Char → List (List Char)
  | [] => [[]]
  | c :: rest =>
    if c = sep then [] :: splitOnChar sep rest
    else
      match splitOnChar sep rest with
      | r :: rs => (c :: r) :: rs
      | [] => [[c]]

/-- Python `s.split(sep)` for a two-character separator `a ++ b`:
left-to-right, non-overlapping occurrences separate the chunks. -/
def splitOn2 (a b : Char) : List Char → List (List Char)
  | c1 :: c2 :: rest =>
    if c1 = a ∧ c2 = b then [] :: splitOn2 a b rest
    else
      match splitOn2 a b (c2 :: rest) with
      | r :: rs => (c1 :: r) :: rs
      | [] => [[c1]]
  | l => [l]

/-- ASCII whitespace recognised by Python `str.strip` (the program only
strips pattern strings typed by the user). -/
def isSpaceChar (c : Char) : Bool :=
  c == ' ' || c == '\t' || c == '\n' || c == '\r' || c == '\x0b' || c == '\x0c'

/-- Python `s.strip()` on character lists. -/
def listStrip (s : List Char) : List Char :=
  ((s.dropWhile isSpaceChar).reverse.dropWhile isSpaceChar).reverse

/-- `sep.join(parts)`-style joining on character lists. -/
def joinWith (sep : List Char) : List (List Char) → List Char
  | [] => []
  | [x] => x
  | x :: xs => x ++ sep ++ joinWith sep xs

/-! ## path_utils.py -/

/-- `path_utils.normalize_path`: `path.replace('/', '\\')` — every forward
slash becomes a backslash. -/
def normalizePath (path : String) : String :=
  ⟨path.data.map (fun c => if c = '/' then '\\' else c)⟩

/-- The relative-path fragment of Windows `os.path.normpath`, used by
`path_utils.is_subpath`: separators are unified to `'\'`, empty and `"."`
components are dropped, `".."` pops the previous component (unless the path
so far consists of `".."` components), and an empty result becomes `"."`.
Drive letters and rooted paths do not occur in the program's relative-path
arguments and are not modelled. -/
def normpath (path : String) : String :=
  let comps := splitOnChar '\\' (normalizePath path).data
  let f := comps.foldl
    (fun acc c =>
      if c = [] ∨ c = ['.'] then acc
      else if c = ['.', '.'] then
        (if acc ≠ [] ∧ acc.getLast? ≠ some ['.', '.'] then acc.dropLast
         else acc ++ [c])
      else acc ++ [c]) []
  if f = [] then "." else ⟨joinWith ['\\'] f⟩

/-- `path_utils.is_subpath(parent, child)`: after `os.path.normpath` on both,
`child.startswith(parent)` and either the lengths agree or the character of
`child` at index `len(parent)` is the separator `'\'`. -/
def isSubpath (parent child : String) : Bool :=
  let p := (normpath parent).data
  let c := (normpath child).data
  listStartsWith c p && (c.length == p.length || c.getD p.length ' ' == '\\')

/-- Windows `os.path.normcase`, applied by `fnmatch.fnmatch` to both of its
arguments: forward slashes become backslashes and letters are lower-cased. -/
def normcase (s : String) : List Char :=
  (normalizePath s).data.map Char.toLower

/-- Scan a glob character class for its closing `']'`: returns the content
before the first `']'` and the remainder after it, or `none` when the class
is unterminated. -/
def findClose : List Char → Option (List Char × List Char)
  | [] => none
  | c :: t =>
    if c = ']' then some ([], t)
    else
      match findClose t with
      | some (a, r) => some (c :: a, r)
      | none => none

/-- Parse a glob character-class body after the optional `'!'`, mirroring
`fnmatch.translate`: a `']'` directly at the start is a literal member and
the class ends at the next `']'`. -/
def parseClassBody (l : List Char) : Option (List Char × List Char) :=
  match l with
  | ']' :: t =>
    match findClose t with
    | some (a, r) => some (']' :: a, r)
    | none => none
  | _ => findClose l

/-- Parse the body of a glob character class following `'['`, mirroring
`fnmatch.translate`: a leading `'!'` negates the class.  Returns
`(negated, content, rest)` or `none` when no closing `']'` exists (in which
case `'['` is treated as a literal character). -/
def parseClass (l : List Char) : Option (Bool × List Char × List Char) :=
  match l with
  | '!' :: rest => (parseClassBody rest).map (fun p => (true, p.1, p.2))
  | _ => (parseClassBody l).map (fun p => (false, p.1, p.2))

/-- Membership of a character in a glob character-class body: `x-y` denotes
an inclusive range (an empty range with `x > y` matches nothing, as in
`fnmatch.translate`), any other character is a literal member; a hyphen at
the start or end of the body is literal. -/
def matchClassChar : List Char → Char → Bool
  | [], _ => false
  | [x], c => x == c
  | x :: '-' :: y :: rest, c =>
    (decide (x ≤ c) && decide (c ≤ y)) || matchClassChar rest c
  | x :: rest, c => x == c || matchClassChar rest c

/-- The matching semantics of `fnmatch.translate`'s regular expression,
fuel-indexed for structural recursion (the pattern shrinks by at least one
character at every step, so `fuel = pattern.length` never runs out):
`*` matches any run of characters (separators included, via a match of the
remaining pattern against some suffix), `?` any single character,
`[...]`/`[!...]` character classes, anything else literally; the whole
string must be consumed (`\Z`-anchored full match). -/
def globMatchF : Nat → List Char → List Char → Bool
  | _, [], s => s.isEmpty
  | 0, _ :: _, _ => false
  | fuel + 1, '*' :: ps, s => (List.tails s).any (fun t => globMatchF fuel ps t)
  | fuel + 1, '?' :: ps, s =>
    (match s with
     | [] => false
     | _ :: s' => globMatchF fuel ps s')
  | fuel + 1, '[' :: ps, s =>
    (match parseClass ps with
     | some (neg, content, rest) =>
       (match s with
        | c :: s' => (matchClassChar content c != neg) && globMatchF fuel rest s'
        | [] => false)
     | none =>
       (match s with
        | '[' :: s' => globMatchF fuel ps s'
        | _ => false))
  | fuel + 1, c :: ps, s =>
    (match s with
     | c' :: s' => c == c' && globMatchF fuel ps s'
     | [] => false)

/-- Full glob match of a pattern against a string, with sufficient fuel. -/
def globMatch (p s : List Char) : Bool :=
  globMatchF p.length p s

/-- `fnmatch.fnmatch(name, pat)` on Windows: both arguments go through
`os.path.normcase`, then the translated glob pattern must match the whole
name. -/
def pyFnmatch (name pat : String) : Bool :=
  globMatch (normcase pat) (normcase name)

/-- `path_utils.matches_pattern(path, pattern)`: both arguments are
separator-normalized; when splitting the pattern on `"**"` yields exactly
two parts the result is a starts-with/ends-with test, otherwise (no `"**"`
at all, or more than one) the result falls through to `fnmatch.fnmatch`. -/
def matchesPattern (path pattern : String) : Bool :=
  let normPath := normalizePath path
  let normPat := normalizePath pattern
  match splitOn2 '*' '*' normPat.data with
  | [a, b] => listStartsWith normPath.data a && listEndsWith normPath.data b
  | _ => pyFnmatch normPath normPat


/-- Lexicographic `≤` on character lists by code point, matching Python
string comparison. -/
def lexLE : List Char → List Char → Bool
  | [], _ => true
  | _ :: _, [] => false
  | a :: as, b :: bs => if a = b then lexLE as bs else decide (a < b)

/-! ## filter_engine.py -/

/-- `FilterEngine._parse_patterns`: an empty or all-whitespace string yields
no patterns; otherwise the string is split on commas, each non-blank piece
is stripped and separator-normalized. -/
def parsePatterns (patternStr : String) : List String :=
  if (listStrip patternStr.data).isEmpty then []
  else
    (splitOnChar ',' patternStr.data).filterMap
      (fun p =>
        if (listStrip p).isEmpty then none
        else some (normalizePath ⟨listStrip p⟩))

/-- `FilterEngine._refresh_cache`, with the filesystem walk abstracted by the
list `walkFiles` of relative file paths that `os.walk` + `os.path.relpath`
would produce under the base directory: an empty base path yields an empty
cache; with no include patterns every walked file is collected
(`_collect_all_files`), otherwise only files matching at least one include
pattern (`_collect_matching_files`); files matching an exclude pattern are
then removed (`_exclude_matching_files`). -/
def refreshCache (basePath : String) (walkFiles : List String)
    (includePatterns excludePatterns : List String) : Finset String :=
  if basePath = "" then ∅
  else
    let collected :=
      if includePatterns.isEmpty then walkFiles.map normalizePath
      else (walkFiles.map normalizePath).filter
        (fun np => includePatterns.any (fun pat => matchesPattern np pat))
    let remaining :=
      if excludePatterns.isEmpty then collected
      else collected.filter
        (fun it => !(excludePatterns.any (fun pat => matchesPattern it pat)))
    remaining.toFinset

/-- `FilterEngine.is_visible`: with no patterns at all everything is visible;
otherwise the normalized path must be a cached visible item or an ancestor
(`is_subpath` parent) of one. -/
def isVisible (includePatterns excludePatterns : List String)
    (visibleItems : Finset String) (path : String) : Bool :=
  if includePatterns.isEmpty && excludePatterns.isEmpty then true
  else
    let np := normalizePath path
    decide (np ∈ visibleItems) || decide (∃ v ∈ visibleItems, isSubpath np v = true)

/-! ## tree_manager.py: data model -/

/-- `Qt.CheckState`. -/
inductive CheckState where
  | unchecked
  | partiallyChecked
  | checked
deriving DecidableEq, Repr

/-- A `QStandardItem` of the tree model: display text, the relative path
stored under `Qt.ItemDataRole.UserRole`, the check state, and the child
rows.  Every item the tree manager creates is checkable. -/
inductive Item where
  | mk (name relPath : String) (state : CheckState) (children : List Item)

def Item.name : Item → String
  | .mk n _ _ _ => n

def Item.relPath : Item → String
  | .mk _ p _ _ => p

def Item.state : Item → CheckState
  | .mk _ _ s _ => s

def Item.children : Item → List Item
  | .mk _ _ _ cs => cs

/-- A filesystem entry under the base directory: `os.listdir` of a directory
is modelled as the `List FSEntry` of its entries. -/
inductive FSEntry where
  | file (name : String)
  | dir (name : String) (entries : List FSEntry)

def FSEntry.name : FSEntry → String
  | .file n => n
  | .dir n _ => n

/-- `os.path.isdir` of the entry's full path. -/
def FSEntry.isDir : FSEntry → Bool
  | .file _ => false
  | .dir _ _ => true

/-- The sort key comparison of `TreeManager._add_directory`:
`key=lambda x: (not os.path.isdir(...), x.lower())` — directories before
files, then case-insensitively by name (code-point order on the lowered
name, as Python tuple/string comparison). -/
def entryLE (a b : FSEntry) : Bool :=
  if a.isDir = b.isDir then
    lexLE (a.name.data.map Char.toLower) (b.name.data.map Char.toLower)
  else a.isDir

/-- Stable insertion of an entry into a sorted listing (used to model
Python's stable `sorted`). -/
def orderedInsertEntry (e : FSEntry) : List FSEntry → List FSEntry
  | [] => [e]
  | x :: xs => if entryLE e x then e :: x :: xs else x :: orderedInsertEntry e xs

/-- Python `sorted(listing, key=...)`: a stable sort by `entryLE`. -/
def sortEntries : List FSEntry → List FSEntry
  | [] => []
  | e :: es => orderedInsertEntry e (sortEntries es)

/-- Sort every directory listing of a filesystem, at all depths.  Sorting is
per-level and the comparison key only reads an entry's kind and name, so
pre-sorting the whole tree and then walking it without re-sorting produces
exactly the rows `TreeManager._add_directory` produces by sorting each
directory listing as it visits it. -/
def sortEntryAll : FSEntry → FSEntry
  | .file n => .file n
  | .dir n sub => .dir n (sortEntries (mapSortEntryAll sub))
where mapSortEntryAll : List FSEntry → List FSEntry
  | [] => []
  | e :: rest => sortEntryAll e :: mapSortEntryAll rest

/-- All levels of a listing, sorted (see `sortEntryAll`). -/
def sortAll (entries : List FSEntry) : List FSEntry :=
  sortEntries (sortEntryAll.mapSortEntryAll entries)

/-- `os.path.join(rel_path, name) if rel_path else name`, Windows separator
(`os.path.join("", name)` also yields `name`, so `_add_directory` and
`_check_children_visibility` agree). -/
def joinRel (relPath name : String) : String :=
  if relPath = "" then name else relPath ++ "\\" ++ name

mutual

/-- One entry of `TreeManager._check_children_visibility`'s loop: the
visibility test of the entry's path comes first, then (for a directory) the
recursive descent. -/
def checkEntryVisibility (isVis : String → Bool) : String → FSEntry → Bool
  | relPath, .file n => isVis (joinRel relPath n)
  | relPath, .dir n sub =>
    isVis (joinRel relPath n)
      || checkChildrenVisibility isVis (joinRel relPath n) sub

/-- `TreeManager._check_children_visibility`: true iff some entry below the
directory (file or directory, at any depth) is visible. -/
def checkChildrenVisibility (isVis : String → Bool) : String → List FSEntry → Bool
  | _, [] => false
  | relPath, e :: rest =>
    checkEntryVisibility isVis relPath e || checkChildrenVisibility isVis relPath rest

end

mutual

/-- The row-building loop of `TreeManager._add_directory` over an
(all-levels) sorted listing: per entry, build its rows and continue. -/
def addRows (isVis : String → Bool) (sel : Finset String) :
    String → List FSEntry → List Item
  | _, [] => []
  | relPath, e :: rest =>
    addRowEntry isVis sel relPath e ++ addRows isVis sel relPath rest

/-- One iteration of the row-building loop of `TreeManager._add_directory`:
an entry is skipped (no row) when it is invisible and (for directories) has
no visible descendant; an included entry becomes one checkable item whose
state is `Checked` exactly when its relative path is in the selected set,
a directory's sub-rows being built recursively. -/
def addRowEntry (isVis : String → Bool) (sel : Finset String) :
    String → FSEntry → List Item
  | relPath, .file n =>
    let p := joinRel relPath n
    if !isVis p then []
    else [Item.mk n p (if p ∈ sel then .checked else .unchecked) []]
  | relPath, .dir n sub =>
    let p := joinRel relPath n
    let visible := isVis p
    let hasVisibleChildren :=
      if !visible then checkChildrenVisibility isVis p sub else false
    if !visible && !hasVisibleChildren then []
    else
      [Item.mk n p (if p ∈ sel then .checked else .unchecked)
        (addRows isVis sel p sub)]

end

/-- `TreeManager._add_directory`: sort the listing (all levels at once, see
`sortAll`) and build the rows. -/
def addDirectory (isVis : String → Bool) (sel : Finset String)
    (relPath : String) (entries : List FSEntry) : List Item :=
  addRows isVis sel relPath (sortAll entries)

/-! ## tree_manager.py: manager state and operations -/

/-- The non-widget state of `TreeManager`: the base path and the selected
relative paths (`self.base_path`, `self.selected_paths`). -/
structure TreeManagerState where
  basePath : String
  selectedPaths : Finset String

/-- `TreeManager.set_base_path`: assigns `self.base_path` and nothing else. -/
def setBasePath (tm : TreeManagerState) (path : String) : TreeManagerState :=
  { tm with basePath := path }

/-- `TreeManager.set_selected_paths`: replaces the selected set wholesale. -/
def setSelectedPaths (tm : TreeManagerState) (paths : Finset String) : TreeManagerState :=
  { tm with selectedPaths := paths }

/-- `os.path.basename` for the slash-free Windows paths the program passes
(used only for the root item's display text). -/
def baseName (path : String) : String :=
  ⟨(splitOnChar '\\' (normalizePath path).data).getLastD []⟩

/-- `TreeManager.populate_tree`: clears the model; with an empty base path
nothing more happens; otherwise the root item carries relative path `""`,
is `Checked` exactly when `""` is in the selected set, and its rows are
built by `_add_directory`.  The method reads but never writes
`self.selected_paths`, which the returned state makes explicit. -/
def populateTreeOp (isVis : String → Bool) (fs : List FSEntry)
    (tm : TreeManagerState) : Option Item × TreeManagerState :=
  if tm.basePath = "" then (none, tm)
  else
    (some (Item.mk (baseName tm.basePath) ""
        (if "" ∈ tm.selectedPaths then .checked else .unchecked)
        (addDirectory isVis tm.selectedPaths "" fs)),
      tm)

/-- `TreeManager._set_check_state_to_children`, acting on one child row: the
child's own check state changes only when its path is visible; the recursion
into the child's rows happens regardless of the child's visibility. -/
def setStateItem (isVis : String → Bool) (s : CheckState) : Item → Item
  | .mk n p st cs =>
    .mk n p (if isVis p then s else st)
      (if cs.isEmpty then cs else setStateList isVis s cs)
where setStateList (isVis : String → Bool) (s : CheckState) : List Item → List Item
  | [] => []
  | c :: rest => setStateItem isVis s c :: setStateList isVis s rest

/-- `TreeManager._add_path_and_children` inlined per child: a visible child's
path is added, and for a visible child with rows the recursive call re-adds
the child's path and then processes its rows; an invisible child contributes
nothing (its subtree is not descended into for adding). -/
def addChild (isVis : String → Bool) : Item → Finset String → Finset String
  | .mk _ p _ cs, acc =>
    if isVis p then
      (let a := insert p acc
       if cs.isEmpty then a else addList isVis cs (insert p a))
    else acc
where addList (isVis : String → Bool) : List Item → Finset String → Finset String
  | [], acc => acc
  | c :: rest, acc => addList isVis rest (addChild isVis c acc)

/-- `TreeManager._remove_path_and_children` inlined per child: the child's
path is discarded regardless of visibility, and a child with rows is
descended into recursively (discarding its path again first). -/
def removeChild : Item → Finset String → Finset String
  | .mk _ p _ cs, acc =>
    let a := acc.erase p
    if cs.isEmpty then a else removeList cs (a.erase p)
where removeList : List Item → Finset String → Finset String
  | [], acc => acc
  | c :: rest, acc => removeList rest (removeChild c acc)

/-- `TreeManager.handle_item_changed` on a (checkable) item: read the item's
check state; if the item has rows, push that state to all visible
descendants; then add the item's path and its visible descendants' paths to
the selected set when the state is `Checked`, otherwise remove the item's
path and all descendant paths.  (The main window disconnects the
`itemChanged` signal around this handler, so the `setCheckState` calls do
not re-enter it.)  Ancestors of the item are not touched. -/
def handleItemChanged (isVis : String → Bool) (it : Item) (sel : Finset String) :
    Item × Finset String :=
  let it1 :=
    if it.children.isEmpty then it
    else Item.mk it.name it.relPath it.state
      (setStateItem.setStateList isVis it.state it.children)
  if it.state = .checked then
    (it1, addChild.addList isVis it1.children (insert it1.relPath sel))
  else
    (it1, removeChild.removeList it1.children (sel.erase it1.relPath))

/-- A user toggle on an item: Qt's view first writes the new check state
into the item (a plain checkbox toggles between `Checked` and `Unchecked`)
and then emits `itemChanged`, which runs `handle_item_changed`. -/
def toggleOp (isVis : String → Bool) (checked : Bool) (it : Item)
    (sel : Finset String) : Item × Finset String :=
  handleItemChanged isVis
    (Item.mk it.name it.relPath (if checked then .checked else .unchecked) it.children)
    sel

/-- `TreeManager.reset_selection`: clears the selected set and unchecks every
item of the tree (returned as the transformed forest of top-level rows). -/
def uncheckAll : Item → Item
  | .mk n p _ cs => .mk n p .unchecked (uncheckAllList cs)
where uncheckAllList : List Item → List Item
  | [] => []
  | c :: rest => uncheckAll c :: uncheckAllList rest

mutual

/-- Resolution of path components against one filesystem entry: exactly one
remaining component must name a file, more components descend through a
directory of that name. -/
def fsHasFileEntry : FSEntry → List (List Char) → Bool
  | .file n, [c] => n.data == c
  | .file _, _ => false
  | .dir n sub, c :: rest =>
    (match rest with
     | [] => false
     | _ :: _ => n.data == c && fsHasFileComps sub rest)
  | .dir _ _, [] => false

/-- Some entry of the listing resolves the remaining path components to a
file. -/
def fsHasFileComps : List FSEntry → List (List Char) → Bool
  | [], _ => false
  | e :: es, comps => fsHasFileEntry e comps || fsHasFileComps es comps

end

/-- Disk existence of a relative file path in a modelled filesystem
(the claim vocabulary "the file at base/p exists on disk"): the path's
backslash-separated components descend through directory entries and end at
a file entry. -/
def fsHasFile (entries : List FSEntry) (path : String) : Bool :=
  fsHasFileComps entries (splitOnChar '\\' (normalizePath path).data)

/-- All items of a subtree (the item itself and its descendants). -/
def allItems : Item → List Item
  | .mk n p st cs => .mk n p st cs :: allItemsList cs
where allItemsList : List Item → List Item
  | [] => []
  | c :: rest => allItems c ++ allItemsList rest

/-- The relative paths of a subtree's items. -/
def subtreePaths (it : Item) : List String :=
  (allItems it).map Item.relPath

/-! ## export_generator.py -/

/-- What the disk offers at `os.path.join(base_folder, rel_path)` during
export: a directory, a file whose read succeeds with the given decoded
content, or a file/absent entry whose `open`/`read` raises an error with
the given message text. -/
inductive ReadResult where
  | dirEntry
  | fileOk (content : String)
  | fileErr (msg : String)

/-- `"=" * 48`. -/
def sepLine : String :=
  ⟨List.replicate 48 '='⟩

/-- The inline error marker `f"[Error al leer el archivo: {e}]"`. -/
def errMarker (msg : String) : String :=
  "[Error al leer el archivo: " ++ msg ++ "]"

/-- The lines `_generate_file_contents` appends for one selected path: a
directory is skipped silently; a readable file contributes separator,
`File:` header, separator, its content, and a `"\n"` entry; a failing read
contributes the same with the bracketed error marker in place of content. -/
def fileBlock (disk : String → ReadResult) (relPath : String) : List String :=
  match disk relPath with
  | .dirEntry => []
  | .fileOk content => [sepLine, "File: " ++ relPath, sepLine, content, "\n"]
  | .fileErr e => [sepLine, "File: " ++ relPath, sepLine, errMarker e, "\n"]

/-- The `for rel_path in sorted(selected_paths)` loop of
`_generate_file_contents`, over an already-sorted list. -/
def contentLoop (disk : String → ReadResult) : List String → List String
  | [] => []
  | p :: rest => fileBlock disk p ++ contentLoop disk rest

/-- Ascending insertion by code-point order, modelling Python `sorted` on
strings. -/
def orderedInsertStr (x : String) : List String → List String
  | [] => [x]
  | y :: ys => if lexLE x.data y.data then x :: y :: ys else y :: orderedInsertStr x ys

/-- Python `sorted(selected_paths)`. -/
def sortStrings : List String → List String
  | [] => []
  | x :: xs => orderedInsertStr x (sortStrings xs)

/-- `export_generator._generate_file_contents`: iterate the selected paths
in ascending order and join the collected lines with `"\n"`.  The selected
set is passed as the list of its elements (in any enumeration order —
`sortStrings` canonicalizes it exactly as Python's `sorted(selected_paths)`
does). -/
def generateFileContents (disk : String → ReadResult) (selectedPaths : List String) :
    String :=
  ⟨joinWith ['\n'] ((contentLoop disk (sortStrings selectedPaths)).map String.data)⟩

/-! ## Object identity of `get_selected_paths` -/

/-- A heap of Python `set` objects, addressed by object identity. -/
structure PyHeap where
  sets : Nat → Finset String

/-- The `TreeManager` as a holder of a reference to its `selected_paths`
set object. -/
structure TreeManagerObj where
  selectedRef : Nat

/-- `TreeManager.get_selected_paths`: `return self.selected_paths` — the
method returns the very reference stored in the manager, not a copy. -/
def getSelectedPathsRef (tm : TreeManagerObj) : Nat :=
  tm.selectedRef

/-- Reading a set object from the heap. -/
def heapRead (h : PyHeap) (r : Nat) : Finset String :=
  h.sets r

/-- `s.add(x)` performed on the set object `r`: mutates that object in
place, all other objects unchanged. -/
def heapInsert (h : PyHeap) (r : Nat) (x : String) : PyHeap :=
  ⟨fun i => if i = r then insert x (h.sets i) else h.sets i⟩

/-- The relative paths of a forest of items (all depths). -/
def pathsOfForest (forest : List Item) : List String :=
  (allItems.allItemsList forest).map Item.relPath

mutual

/-- Resolution of path components to a directory entry (claim vocabulary:
the path names a Directory). -/
def fsHasDirEntry : FSEntry → List (List Char) → Bool
  | .file _, _ => false
  | .dir n _, [c] => n.data == c
  | .dir n sub, c :: rest =>
    (match rest with
     | [] => false
     | _ :: _ => n.data == c && fsHasDirComps sub rest)
  | .dir _ _, [] => false

/-- Some entry of the listing resolves the remaining path components to a
directory. -/
def fsHasDirComps : List FSEntry → List (List Char) → Bool
  | [], _ => false
  | e :: es, comps => fsHasDirEntry e comps || fsHasDirComps es comps

end

/-- Existence of a relative directory path in a modelled filesystem. -/
def fsHasDir (entries : List FSEntry) (path : String) : Bool :=
  fsHasDirComps entries (splitOnChar '\\' (normalizePath path).data)

/-! ## Concrete scenarios used by the claims -/

/-- The visibility predicate with no filter patterns set (`is_visible`
returns `True` unconditionally). -/
def visAll : String → Bool := fun _ => true

/-- The spec's running example: base folder `/proj` containing exactly the
files `a.py` and `sub/b.py`. -/
def fsProj : List FSEntry := [.dir "sub" [.file "b.py"], .file "a.py"]

/-- Base folder with the files `a.py` and `b.py` side by side. -/
def fsAB : List FSEntry := [.file "a.py", .file "b.py"]

/-- Base folder with the single file `a.py`. -/
def fsA : List FSEntry := [.file "a.py"]

/-- The tree built by `populate_tree` over `/proj` with nothing selected. -/
def rootProj : Item :=
  (populateTreeOp visAll fsProj ⟨"C:\\proj", ∅⟩).1.getD (Item.mk "" "" .unchecked [])

/-- The tree built by `populate_tree` over `a.py`/`b.py` with `a.py`
selected. -/
def rootAB : Item :=
  (populateTreeOp visAll fsAB ⟨"C:\\proj", {"a.py"}⟩).1.getD (Item.mk "" "" .unchecked [])

/-- The tree built by `populate_tree` over the single file `a.py` with
`a.py` selected. -/
def rootA : Item :=
  (populateTreeOp visAll fsA ⟨"C:\\proj", {"a.py"}⟩).1.getD (Item.mk "" "" .unchecked [])

/-- Include patterns parsed from `"*.py"`. -/
def incPy : List String := parsePatterns "*.py"

/-- Exclude patterns parsed from `"**/b.py"`. -/
def excB : List String := parsePatterns "**/b.py"

/-- The visible-files cache for `/proj` (files `a.py`, `sub/b.py`) under
include `*.py`, exclude `**/b.py`. -/
def cacheAB : Finset String := refreshCache "C:\\proj" ["a.py", "sub\\b.py"] incPy excB

/-- The visible-files cache when `sub` additionally holds `c.py`. -/
def cacheABC : Finset String :=
  refreshCache "C:\\proj" ["a.py", "sub\\b.py", "sub\\c.py"] incPy excB

/-- An export disk: `a.py` reads fine, `bad.py` errors on read, `somedir`
is a directory. -/
def diskDemo : String → ReadResult := fun p =>
  if p = "a.py" then .fileOk "print(1)"
  else if p = "bad.py" then .fileErr "Permission denied"
  else .dirEntry

/-! ## Helper lemmas -/

theorem mem_allItemsList (L : List Item) (d : Item) :
    d ∈ allItems.allItemsList L ↔ ∃ c ∈ L, d ∈ allItems c := by
  induction L with
  | nil => simp [allItems.allItemsList]
  | cons c rest ih => simp [allItems.allItemsList, ih]

theorem allItems_mk (n p : String) (st : CheckState) (cs : List Item) (d : Item) :
    d ∈ allItems (.mk n p st cs) ↔ d = .mk n p st cs ∨ d ∈ allItems.allItemsList cs := by
  simp [allItems]

theorem subtreePaths_mk (n p : String) (st : CheckState) (cs : List Item) :
    subtreePaths (.mk n p st cs) = p :: pathsOfForest cs := by
  simp [subtreePaths, pathsOfForest, allItems, Item.relPath]

theorem pathsOfForest_cons (c : Item) (rest : List Item) :
    pathsOfForest (c :: rest) = subtreePaths c ++ pathsOfForest rest := by
  simp [pathsOfForest, subtreePaths, allItems.allItemsList]

theorem pathsOfForest_nil : pathsOfForest [] = [] := by
  simp [pathsOfForest, allItems.allItemsList]

mutual

theorem addRowEntry_state (isVis : String → Bool) (sel : Finset String) :
    ∀ (e : FSEntry) (rp : String) (it : Item), it ∈ addRowEntry isVis sel rp e →
      ∀ d ∈ allItems it,
        d.state = (if d.relPath ∈ sel then CheckState.checked else CheckState.unchecked)
  | .file n, rp, it, hmem, d, hd => by
    simp only [addRowEntry] at hmem
    split at hmem
    · simp at hmem
    · simp only [List.mem_singleton] at hmem
      subst hmem
      rw [allItems_mk] at hd
      rcases hd with h | h
      · subst h
        simp [Item.state, Item.relPath, allItems.allItemsList]
      · simp [allItems.allItemsList] at h
  | .dir n sub, rp, it, hmem, d, hd => by
    simp only [addRowEntry] at hmem
    split at hmem <;>
    [skip; skip] <;>
    · have hit : it = Item.mk n (joinRel rp n)
          (if joinRel rp n ∈ sel then CheckState.checked else CheckState.unchecked)
          (addRows isVis sel (joinRel rp n) sub) := by
        first
        | exact hmem.2
        | exact hmem
        | simp_all
      subst hit
      rw [allItems_mk] at hd
      rcases hd with h | h
      · subst h
        simp [Item.state, Item.relPath]
      · rcases (mem_allItemsList _ _).mp h with ⟨c, hc, hdc⟩
        exact addRows_state isVis sel sub (joinRel rp n) c hc d hdc

theorem addRows_state (isVis : String → Bool) (sel : Finset String) :
    ∀ (l : List FSEntry) (rp : String) (it : Item), it ∈ addRows isVis sel rp l →
      ∀ d ∈ allItems it,
        d.state = (if d.relPath ∈ sel then CheckState.checked else CheckState.unchecked)
  | [], _, it, hmem, _, _ => by simp [addRows] at hmem
  | e :: rest, rp, it, hmem, d, hd => by
    simp only [addRows] at hmem
    rcases List.mem_append.mp hmem with h | h
    · exact addRowEntry_state isVis sel e rp it h d hd
    · exact addRows_state isVis sel rest rp it h d hd

end

mutual

theorem addChild_subset (isVis : String → Bool) :
    ∀ (c : Item) (a : Finset String), a ⊆ addChild isVis c a
  | .mk n p st cs, a => by
    simp only [addChild]
    split
    · split
      · exact Finset.subset_insert _ _
      · exact fun x hx =>
          addList_subset isVis cs _ (Finset.mem_insert_of_mem
            (Finset.mem_insert_of_mem hx))
    · exact fun x hx => hx

theorem addList_subset (isVis : String → Bool) :
    ∀ (L : List Item) (a : Finset String), a ⊆ addChild.addList isVis L a
  | [], a => by simp [addChild.addList]
  | c :: rest, a => by
    simp only [addChild.addList]
    exact fun x hx => addList_subset isVis rest _ (addChild_subset isVis c a hx)

end

mutual

theorem removeChild_subset :
    ∀ (c : Item) (a : Finset String), removeChild c a ⊆ a
  | .mk n p st cs, a => by
    simp only [removeChild]
    split
    · exact Finset.erase_subset _ _
    · exact fun x hx =>
        Finset.erase_subset _ _
          (Finset.erase_subset _ _ (removeList_subset cs _ hx))

theorem removeList_subset :
    ∀ (L : List Item) (a : Finset String), removeChild.removeList L a ⊆ a
  | [], a => by simp [removeChild.removeList]
  | c :: rest, a => by
    simp only [removeChild.removeList]
    exact fun x hx => removeChild_subset c a (removeList_subset rest _ hx)

end

mutual

theorem removeChild_not_mem :
    ∀ (c : Item) (a : Finset String) (q : String),
      q ∈ subtreePaths c → q ∉ removeChild c a
  | .mk n p st cs, a, q, hq => by
    rw [subtreePaths_mk] at hq
    simp only [removeChild]
    rcases List.mem_cons.mp hq with h | h
    · subst h
      split
      · exact Finset.not_mem_erase _ _
      · intro hmem
        exact Finset.not_mem_erase q _ (removeList_subset cs _ hmem)
    · cases cs with
      | nil => rw [pathsOfForest_nil] at h; simp at h
      | cons c' rest' =>
        simp only [List.isEmpty_cons, if_neg Bool.false_ne_true]
        exact removeList_not_mem (c' :: rest') _ q h

theorem removeList_not_mem :
    ∀ (L : List Item) (a : Finset String) (q : String),
      q ∈ pathsOfForest L → q ∉ removeChild.removeList L a
  | [], _, q, hq => by rw [pathsOfForest_nil] at hq; simp at hq
  | c :: rest, a, q, hq => by
    rw [pathsOfForest_cons] at hq
    simp only [removeChild.removeList]
    rcases List.mem_append.mp hq with h | h
    · intro hmem
      exact removeChild_not_mem c a q h (removeList_subset rest _ hmem)
    · exact removeList_not_mem rest _ q h

end

mutual

theorem setStateItem_paths (isVis : String → Bool) (s : CheckState) :
    ∀ (it : Item), subtreePaths (setStateItem isVis s it) = subtreePaths it
  | .mk n p st cs => by
    cases cs with
    | nil => simp [setStateItem, subtreePaths_mk]
    | cons c rest =>
      simp only [setStateItem, List.isEmpty_cons, subtreePaths_mk]
      rw [if_neg Bool.false_ne_true]
      rw [setStateList_paths isVis s (c :: rest)]

theorem setStateList_paths (isVis : String → Bool) (s : CheckState) :
    ∀ (L : List Item),
      pathsOfForest (setStateItem.setStateList isVis s L) = pathsOfForest L
  | [] => by simp [setStateItem.setStateList]
  | c :: rest => by
    simp only [setStateItem.setStateList, pathsOfForest_cons]
    rw [setStateItem_paths isVis s c, setStateList_paths isVis s rest]

end

mutual

theorem setStateItem_visible_state (isVis : String → Bool) (s : CheckState) :
    ∀ (it : Item) (d : Item), d ∈ allItems (setStateItem isVis s it) →
      isVis d.relPath = true → d.state = s
  | .mk n p st cs, d, hd, hvis => by
    simp only [setStateItem] at hd
    rw [allItems_mk] at hd
    rcases hd with h | h
    · subst h
      simp only [Item.relPath] at hvis
      simp [Item.state, hvis]
    · cases cs with
      | nil => simp [allItems.allItemsList] at h
      | cons c rest =>
        rw [List.isEmpty_cons, if_neg Bool.false_ne_true] at h
        exact setStateList_visible_state isVis s (c :: rest) d h hvis

theorem setStateList_visible_state (isVis : String → Bool) (s : CheckState) :
    ∀ (L : List Item) (d : Item),
      d ∈ allItems.allItemsList (setStateItem.setStateList isVis s L) →
      isVis d.relPath = true → d.state = s
  | [], d, hd, _ => by simp [setStateItem.setStateList, allItems.allItemsList] at hd
  | c :: rest, d, hd, hvis => by
    simp only [setStateItem.setStateList, allItems.allItemsList] at hd
    rcases List.mem_append.mp hd with h | h
    · exact setStateItem_visible_state isVis s c d h hvis
    · exact setStateList_visible_state isVis s rest d h hvis

end

theorem subtreePaths_eq (it : Item) :
    subtreePaths it = it.relPath :: pathsOfForest it.children := by
  cases it with
  | mk n p st cs => rw [subtreePaths_mk]; simp [Item.relPath, Item.children]

theorem handleItemChanged_spec (isVis : String → Bool) (it : Item) (sel : Finset String) :
    (handleItemChanged isVis it sel).1.name = it.name ∧
    (handleItemChanged isVis it sel).1.relPath = it.relPath ∧
    (handleItemChanged isVis it sel).1.state = it.state ∧
    pathsOfForest (handleItemChanged isVis it sel).1.children = pathsOfForest it.children ∧
    (handleItemChanged isVis it sel).2 =
      (if it.state = .checked
       then addChild.addList isVis (handleItemChanged isVis it sel).1.children
         (insert it.relPath sel)
       else removeChild.removeList (handleItemChanged isVis it sel).1.children
         (sel.erase it.relPath)) := by
  by_cases h : it.children.isEmpty
  · simp only [handleItemChanged, h, if_true]
    split <;> rename_i hst <;> simp [hst]
  · simp only [handleItemChanged, h, Bool.false_eq_true, if_false]
    split <;> rename_i hst <;>
      simp [hst, Item.name, Item.relPath, Item.state, Item.children, setStateList_paths]

theorem handleItemChanged_children (isVis : String → Bool) (it : Item)
    (sel : Finset String) :
    (handleItemChanged isVis it sel).1.children =
      (if it.children.isEmpty then it.children
       else setStateItem.setStateList isVis it.state it.children) := by
  simp only [handleItemChanged]
  split <;> rename_i hst <;> split <;> rename_i hc <;> simp [Item.children, hc]

theorem handleItemChanged_children_state (isVis : String → Bool) (it : Item)
    (sel : Finset String) :
    ∀ d ∈ allItems.allItemsList (handleItemChanged isVis it sel).1.children,
      isVis d.relPath = true → d.state = it.state := by
  intro d hd hvis
  rw [handleItemChanged_children] at hd
  by_cases h : it.children.isEmpty
  · rw [if_pos h] at hd
    rw [List.isEmpty_iff] at h
    rw [h] at hd
    simp [allItems.allItemsList] at hd
  · rw [if_neg h] at hd
    exact setStateList_visible_state isVis it.state it.children d hd hvis

theorem self_mem_allItems (it : Item) : it ∈ allItems it := by
  cases it with
  | mk n p st cs => simp [allItems]

theorem toggleOp_fst (isVis : String → Bool) (b : Bool) (it : Item) (sel : Finset String) :
    (toggleOp isVis b it sel).1.relPath = it.relPath ∧
    (toggleOp isVis b it sel).1.state =
      (if b then CheckState.checked else CheckState.unchecked) ∧
    pathsOfForest (toggleOp isVis b it sel).1.children = pathsOfForest it.children := by
  unfold toggleOp
  have h := handleItemChanged_spec isVis
    (Item.mk it.name it.relPath (if b then .checked else .unchecked) it.children) sel
  obtain ⟨-, h2, h3, h4, -⟩ := h
  refine ⟨?_, ?_, ?_⟩
  · rw [h2]; simp [Item.relPath]
  · rw [h3]; simp [Item.state]
  · rw [h4]; simp [Item.children]

theorem toggleOp_snd_true (isVis : String → Bool) (it : Item) (sel : Finset String) :
    (toggleOp isVis true it sel).2 =
      addChild.addList isVis (toggleOp isVis true it sel).1.children
        (insert it.relPath sel) := by
  unfold toggleOp
  have h := handleItemChanged_spec isVis
    (Item.mk it.name it.relPath (if true then .checked else .unchecked) it.children) sel
  obtain ⟨-, -, -, -, h5⟩ := h
  rw [h5]
  simp [Item.state, Item.relPath]

theorem toggleOp_snd_false (isVis : String → Bool) (it : Item) (sel : Finset String) :
    (toggleOp isVis false it sel).2 =
      removeChild.removeList (toggleOp isVis false it sel).1.children
        (sel.erase it.relPath) := by
  unfold toggleOp
  have h := handleItemChanged_spec isVis
    (Item.mk it.name it.relPath (if false then .checked else .unchecked) it.children) sel
  obtain ⟨-, -, -, -, h5⟩ := h
  rw [h5]
  simp [Item.state, Item.relPath]

theorem toggleOp_children_state (isVis : String → Bool) (b : Bool) (it : Item)
    (sel : Finset String) :
    ∀ d ∈ allItems.allItemsList (toggleOp isVis b it sel).1.children,
      isVis d.relPath = true →
      d.state = (if b then CheckState.checked else CheckState.unchecked) := by
  intro d hd hvis
  unfold toggleOp at hd
  have h := handleItemChanged_children_state isVis
    (Item.mk it.name it.relPath (if b then .checked else .unchecked) it.children) sel d hd hvis
  simpa [Item.state] using h

theorem mem_contentLoop_of_mem_block (disk : String → ReadResult) :
    ∀ (l : List String) (p : String) (x : String),
      p ∈ l → x ∈ fileBlock disk p → x ∈ contentLoop disk l := by
  intro l
  induction l with
  | nil => intro p x hp; simp at hp
  | cons q rest ih =>
    intro p x hp hx
    rcases List.mem_cons.mp hp with h | h
    · subst h
      exact List.mem_append.mpr (Or.inl hx)
    · exact List.mem_append.mpr (Or.inr (ih p x h hx))

/-! ## Claim theorems -/

/-- C1, counterexample: after `populateTree()` over a base folder holding
`a.py` and `b.py` with selection `{"a.py"}`, the root Directory's state is
`Unchecked` although its children's states are `[Checked, Unchecked]` — the
claimed invariant (`Unchecked` iff every child `Unchecked`, `Partial` for a
mix) fails: the code derives every node's state from its own membership in
the selection set, never from its children, and never assigns `Partial`. -/
theorem c1_tristate_counterexample :
    rootAB.state = CheckState.unchecked ∧
    rootAB.children.map Item.state = [CheckState.checked, CheckState.unchecked] :=
  ⟨by decide, by decide⟩

/-- C1, amended: immediately after `populateTree()` every node's
`selectionState` is `Checked` iff the node's own relative path is in the
selection set and `Unchecked` otherwise (`Partial` never occurs, a
Directory's state is not derived from its children); immediately after a
toggle, the toggled node carries the toggled state and so does every visible
descendant (ancestors are not recomputed — the handler never touches them). -/
theorem c1_tristate_amended :
    (∀ (isVis : String → Bool) (fs : List FSEntry) (tm : TreeManagerState) (root d : Item),
      (populateTreeOp isVis fs tm).1 = some root → d ∈ allItems root →
      d.state =
        (if d.relPath ∈ tm.selectedPaths then CheckState.checked else CheckState.unchecked)) ∧
    (∀ (isVis : String → Bool) (b : Bool) (it : Item) (sel : Finset String),
      (toggleOp isVis b it sel).1.state =
          (if b then CheckState.checked else CheckState.unchecked) ∧
        ∀ d ∈ allItems.allItemsList (toggleOp isVis b it sel).1.children,
          isVis d.relPath = true →
          d.state = (if b then CheckState.checked else CheckState.unchecked)) := by
  constructor
  · intro isVis fs tm root d hpop hd
    unfold populateTreeOp at hpop
    split at hpop
    · simp at hpop
    · simp only [Prod.fst, Option.some.injEq] at hpop
      subst hpop
      rw [allItems_mk] at hd
      rcases hd with h | h
      · subst h
        simp [Item.state, Item.relPath]
      · rcases (mem_allItemsList _ _).mp h with ⟨c, hc, hdc⟩
        exact addRows_state isVis tm.selectedPaths (sortAll fs) "" c
          (by simpa [addDirectory] using hc) d hdc
  · intro isVis b it sel
    exact ⟨(toggleOp_fst isVis b it sel).2.1, toggleOp_children_state isVis b it sel⟩

/-- C1, witness for the amended theorem at the `a.py`/`b.py` scenario: the
root itself is a node of the populated tree and its state is derived from
its own membership (`""` is not selected, so `Unchecked`). -/
theorem c1_tristate_amended_witness :
    (populateTreeOp visAll fsAB ⟨"C:\\proj", {"a.py"}⟩).1 = some rootAB ∧
    rootAB ∈ allItems rootAB ∧
    rootAB.state =
      (if rootAB.relPath ∈ ({"a.py"} : Finset String)
       then CheckState.checked else CheckState.unchecked) :=
  have h1 : (populateTreeOp visAll fsAB ⟨"C:\\proj", {"a.py"}⟩).1 = some rootAB := rfl
  have h2 : rootAB ∈ allItems rootAB := self_mem_allItems rootAB
  ⟨h1, h2, c1_tristate_amended.1 visAll fsAB ⟨"C:\\proj", {"a.py"}⟩ rootAB rootAB h1 h2⟩

/-- C2, counterexample: selections are never pruned — after
`setBasePath("C:\proj")` and `populateTree()` over a disk holding only
`a.py`, the stale selected path `ghost.py` is still reported although no
such file exists. -/
theorem c2_prune_counterexample :
    "ghost.py" ∈
        (populateTreeOp visAll fsA
          (setBasePath ⟨"", {"ghost.py"}⟩ "C:\\proj")).2.selectedPaths ∧
    fsHasFile fsA "ghost.py" = false :=
  ⟨by decide, by decide⟩

/-- C2, amended: `setBasePath` only assigns the base path and
`populateTree` only rebuilds the widget tree; neither prunes (or otherwise
changes) the selection set, so stale selected paths survive both. -/
theorem c2_prune_amended :
    ∀ (tm : TreeManagerState) (path : String) (isVis : String → Bool) (fs : List FSEntry),
      (setBasePath tm path).selectedPaths = tm.selectedPaths ∧
      (populateTreeOp isVis fs tm).2.selectedPaths = tm.selectedPaths := by
  intro tm path isVis fs
  refine ⟨rfl, ?_⟩
  unfold populateTreeOp
  split <;> rfl

/-- C3, counterexample: toggling the root Directory of the `/proj` tree to
checked stores the root's empty-string path and the Directory path `"sub"`
in the selection set (`"sub"` names a directory on the modelled disk). -/
theorem c3_filesonly_counterexample :
    "" ∈ (toggleOp visAll true rootProj ∅).2 ∧
    "sub" ∈ (toggleOp visAll true rootProj ∅).2 ∧
    fsHasDir fsProj "sub" = true :=
  ⟨by decide, by decide, by decide⟩

/-- C3, amended: the selection set is not restricted to File paths —
toggling any node to checked always inserts the node's own relative path
(Directory nodes and the empty-string root path included), and visible
descendant Directory paths are inserted along with descendant File paths. -/
theorem c3_filesonly_amended :
    (∀ (isVis : String → Bool) (it : Item) (sel : Finset String),
      it.relPath ∈ (toggleOp isVis true it sel).2) ∧
    "" ∈ (toggleOp visAll true rootProj ∅).2 ∧
    "sub" ∈ (toggleOp visAll true rootProj ∅).2 := by
  refine ⟨?_, by decide, by decide⟩
  intro isVis it sel
  rw [toggleOp_snd_true]
  exact addList_subset isVis _ _ (Finset.mem_insert_self _ _)

/-- C4, counterexample: toggling the root of `/proj` (files `a.py`,
`sub/b.py`) to checked does not yield `{"a.py", "sub\b.py"}` — the
directory paths `""` and `"sub"` are stored as well. -/
theorem c4_toggle_counterexample :
    (toggleOp visAll true rootProj ∅).2 ≠ ({"a.py", "sub\\b.py"} : Finset String) := by
  decide

/-- C4, amended: toggling a Directory node to checked applies `Checked` to
every visible descendant (directories as well as files) regardless of prior
state, and stores the paths of the node and of its visible descendants; on
`/proj` the resulting selection set is `{"", "a.py", "sub", "sub\b.py"}`
with the root `Checked`. -/
theorem c4_toggle_amended :
    (∀ (isVis : String → Bool) (it : Item) (sel : Finset String) (d : Item),
      d ∈ allItems.allItemsList (toggleOp isVis true it sel).1.children →
      isVis d.relPath = true → d.state = CheckState.checked) ∧
    (toggleOp visAll true rootProj ∅).1.state = CheckState.checked ∧
    (toggleOp visAll true rootProj ∅).2 =
      ({"", "a.py", "sub", "sub\\b.py"} : Finset String) := by
  refine ⟨?_, by decide, by decide⟩
  intro isVis it sel d hd hvis
  simpa using toggleOp_children_state isVis true it sel d hd hvis

/-- C4, witness for the amended theorem: the visible descendant `a.py` of
the toggled `/proj` root carries state `Checked`. -/
theorem c4_toggle_amended_witness :
    Item.mk "a.py" "a.py" CheckState.checked [] ∈
        allItems.allItemsList (toggleOp visAll true rootProj ∅).1.children ∧
    (Item.mk "a.py" "a.py" CheckState.checked []).state = CheckState.checked :=
  have hlist : allItems.allItemsList (toggleOp visAll true rootProj ∅).1.children =
      [Item.mk "sub" "sub" .checked [Item.mk "b.py" "sub\\b.py" .checked []],
       Item.mk "b.py" "sub\\b.py" .checked [],
       Item.mk "a.py" "a.py" .checked []] := rfl
  have hmem : Item.mk "a.py" "a.py" CheckState.checked [] ∈
      allItems.allItemsList (toggleOp visAll true rootProj ∅).1.children := by
    rw [hlist]
    exact List.mem_cons_of_mem _ (List.mem_cons_of_mem _ (List.mem_cons_self _ _))
  ⟨hmem, c4_toggle_amended.1 visAll rootProj ∅ _ hmem (by decide)⟩

/-- C5, counterexample: over a base folder holding only `a.py`, with `a.py`
initially selected, toggling the root Directory to checked and then to
unchecked leaves `a.py` deselected — the descendant File's pre-toggle
membership is not restored. -/
theorem c5_roundtrip_counterexample :
    "a.py" ∈ ({"a.py"} : Finset String) ∧
    "a.py" ∉ (toggleOp visAll false (toggleOp visAll true rootA {"a.py"}).1
        (toggleOp visAll true rootA {"a.py"}).2).2 :=
  ⟨by decide, by decide⟩

/-- C5, amended: toggling a Directory to checked and then immediately to
unchecked removes the Directory's path and every descendant path from the
selection set regardless of their pre-toggle membership (the round trip
clears the subtree rather than restoring it), and the Directory's own state
ends `Unchecked`. -/
theorem c5_roundtrip_amended :
    ∀ (isVis : String → Bool) (it : Item) (sel : Finset String),
      (toggleOp isVis false (toggleOp isVis true it sel).1
          (toggleOp isVis true it sel).2).1.state = CheckState.unchecked ∧
      ∀ q ∈ subtreePaths it,
        q ∉ (toggleOp isVis false (toggleOp isVis true it sel).1
            (toggleOp isVis true it sel).2).2 := by
  intro isVis it sel
  obtain ⟨h1p, h1s, h1c⟩ := toggleOp_fst isVis true it sel
  obtain ⟨h2p, h2s, h2c⟩ :=
    toggleOp_fst isVis false (toggleOp isVis true it sel).1 (toggleOp isVis true it sel).2
  refine ⟨by simpa using h2s, ?_⟩
  intro q hq
  rw [toggleOp_snd_false]
  rw [subtreePaths_eq] at hq
  rcases List.mem_cons.mp hq with h | h
  · subst h
    intro hmem
    have hsub := removeList_subset
      (toggleOp isVis false (toggleOp isVis true it sel).1
        (toggleOp isVis true it sel).2).1.children _ hmem
    rw [h1p] at hsub
    exact Finset.not_mem_erase _ _ hsub
  · have hpaths : q ∈ pathsOfForest
        (toggleOp isVis false (toggleOp isVis true it sel).1
          (toggleOp isVis true it sel).2).1.children := by
      rw [h2c, h1c]; exact h
    exact removeList_not_mem _ _ q hpaths

/-- C5, witness for the amended theorem at the single-file scenario: the
root path `""` is a subtree path of `rootA` and is absent after the
checked/unchecked round trip, and the root ends `Unchecked`. -/
theorem c5_roundtrip_amended_witness :
    (toggleOp visAll false (toggleOp visAll true rootA {"a.py"}).1
        (toggleOp visAll true rootA {"a.py"}).2).1.state = CheckState.unchecked ∧
    "" ∈ subtreePaths rootA ∧
    "" ∉ (toggleOp visAll false (toggleOp visAll true rootA {"a.py"}).1
        (toggleOp visAll true rootA {"a.py"}).2).2 :=
  have hmem : "" ∈ subtreePaths rootA := by
    rw [show subtreePaths rootA = ["", "a.py"] from rfl]
    exact List.mem_cons_self _ _
  ⟨(c5_roundtrip_amended visAll rootA {"a.py"}).1, hmem,
    (c5_roundtrip_amended visAll rootA {"a.py"}).2 "" hmem⟩

/-- C6: `isVisible` is the fast-path/cache/ancestor disjunction — with both
pattern lists empty it is true unconditionally; otherwise it is true iff the
normalized path is a cached visible file or an `is_subpath`-ancestor of one.
On the spec's example (include `*.py`, exclude `**/b.py`, files `a.py` and
`sub/b.py`): `a.py` is visible, `sub/b.py` is not, and `sub` is visible only
when it has some other visible descendant (`sub/c.py` in the second cache). -/
theorem c6_isvisible_spec :
    (∀ (inc exc : List String) (cache : Finset String) (p : String),
      isVisible inc exc cache p = true ↔
        ((inc = [] ∧ exc = []) ∨ normalizePath p ∈ cache ∨
          ∃ v ∈ cache, isSubpath (normalizePath p) v = true)) ∧
    isVisible incPy excB cacheAB "a.py" = true ∧
    isVisible incPy excB cacheAB "sub/b.py" = false ∧
    isVisible incPy excB cacheAB "sub" = false ∧
    isVisible incPy excB cacheABC "sub" = true := by
  refine ⟨?_, by decide, by decide, by decide, by decide⟩
  intro inc exc cache p
  simp only [isVisible]
  split
  · rename_i h
    simp only [Bool.and_eq_true, List.isEmpty_iff] at h
    simp [h]
  · rename_i h
    simp only [Bool.and_eq_true, List.isEmpty_iff] at h
    have hne : ¬(inc = [] ∧ exc = []) := by
      intro hc
      exact h ⟨hc.1, hc.2⟩
    simp [hne]

/-- C7, counterexample: `a**b**` contains more than one `**` (its split has
three parts), yet `matchesPattern("ab", "a**b**")` is true while a literal
match would require the path to equal the pattern — the fall-through goes to
`fnmatch`, not to a literal comparison. -/
theorem c7_matches_counterexample :
    (splitOn2 '*' '*' (normalizePath "a**b**").data).length = 3 ∧
    matchesPattern "ab" "a**b**" = true ∧
    normalizePath "ab" ≠ normalizePath "a**b**" :=
  ⟨by decide, by decide, by decide⟩

/-- C7, amended: with exactly one `**` (a two-part split) the result is the
prefix/suffix test; in every other case — no `**` at all or more than one —
the result falls through to `fnmatch.fnmatch` glob matching (where each `*`
matches any run of characters, separators included), not to a literal
comparison. -/
theorem c7_matches_amended :
    ∀ (path pattern : String),
      (∀ a b, splitOn2 '*' '*' (normalizePath pattern).data = [a, b] →
        matchesPattern path pattern =
          (listStartsWith (normalizePath path).data a &&
            listEndsWith (normalizePath path).data b)) ∧
      ((splitOn2 '*' '*' (normalizePath pattern).data).length ≠ 2 →
        matchesPattern path pattern =
          pyFnmatch (normalizePath path) (normalizePath pattern)) := by
  intro path pattern
  constructor
  · intro a b h
    simp [matchesPattern, h]
  · intro h
    simp only [matchesPattern]
    rcases hs : splitOn2 '*' '*' (normalizePath pattern).data with - | ⟨a, rest⟩
    · rfl
    · rcases rest with - | ⟨b, rest2⟩
      · rfl
      · rcases rest2 with - | ⟨x, rest3⟩
        · rw [hs] at h
          simp at h
        · rfl

/-- C7, witness for the amended theorem: the exactly-one-`**` clause at
`("sub/b.py", "**/b.py")` and the fall-through clause at `("ab", "a**b**")`. -/
theorem c7_matches_amended_witness :
    matchesPattern "sub/b.py" "**/b.py" =
      (listStartsWith (normalizePath "sub/b.py").data [] &&
        listEndsWith (normalizePath "sub/b.py").data ('\\' :: "b.py".data)) ∧
    matchesPattern "ab" "a**b**" =
      pyFnmatch (normalizePath "ab") (normalizePath "a**b**") :=
  ⟨(c7_matches_amended "sub/b.py" "**/b.py").1 [] ('\\' :: "b.py".data) (by decide),
   (c7_matches_amended "ab" "a**b**").2 (by decide)⟩

/-- C8, counterexample: `get_selected_paths` returns `self.selected_paths`
itself, so inserting into the returned set object changes what the manager
subsequently reports — the internal selection set does not stay unchanged. -/
theorem c8_alias_counterexample :
    heapRead (heapInsert ⟨fun _ => {"a.py"}⟩
        (getSelectedPathsRef ⟨0⟩) "x.py") (TreeManagerObj.mk 0).selectedRef ≠
      heapRead ⟨fun _ => {"a.py"}⟩ (TreeManagerObj.mk 0).selectedRef := by
  decide

/-- C8, amended: `get_selected_paths` returns the internal set object
itself, not a defensive copy: the returned reference reads equal to the
internal set, and mutating the set through that reference mutates the
manager's internal selection set identically. -/
theorem c8_alias_amended :
    ∀ (tm : TreeManagerObj) (h : PyHeap) (x : String),
      heapRead h (getSelectedPathsRef tm) = heapRead h tm.selectedRef ∧
      heapRead (heapInsert h (getSelectedPathsRef tm) x) tm.selectedRef =
        insert x (heapRead h tm.selectedRef) := by
  intro tm h x
  exact ⟨rfl, by simp [heapRead, heapInsert, getSelectedPathsRef]⟩

/-- C9: in `_generate_file_contents`, a selected path whose read errors
contributes its `File:` header with the bracketed error marker in place of
content, every other selected readable file still contributes its header and
content (the error aborts nothing), and a selected path resolving to a
directory contributes no lines at all (skipped silently). -/
theorem c9_export_errors :
    ∀ (disk : String → ReadResult) (l : List String),
      (∀ p e, p ∈ l → disk p = .fileErr e →
        errMarker e ∈ contentLoop disk l ∧ ("File: " ++ p) ∈ contentLoop disk l) ∧
      (∀ q c, q ∈ l → disk q = .fileOk c →
        ("File: " ++ q) ∈ contentLoop disk l ∧ c ∈ contentLoop disk l) ∧
      (∀ p, disk p = .dirEntry → fileBlock disk p = []) := by
  intro disk l
  refine ⟨?_, ?_, ?_⟩
  · intro p e hp he
    constructor
    · exact mem_contentLoop_of_mem_block disk l p _ hp (by simp [fileBlock, he])
    · exact mem_contentLoop_of_mem_block disk l p _ hp (by simp [fileBlock, he])
  · intro q c hq hc
    constructor
    · exact mem_contentLoop_of_mem_block disk l q _ hq (by simp [fileBlock, hc])
    · exact mem_contentLoop_of_mem_block disk l q _ hq (by simp [fileBlock, hc])
  · intro p hp
    simp [fileBlock, hp]

/-- C9, witness on a concrete disk (`a.py` readable, `bad.py` erroring,
`somedir` a directory): the error marker and both headers are in the
emitted lines and the directory contributes none. -/
theorem c9_export_errors_witness :
    errMarker "Permission denied" ∈ contentLoop diskDemo ["a.py", "bad.py", "somedir"] ∧
    ("File: " ++ "a.py") ∈ contentLoop diskDemo ["a.py", "bad.py", "somedir"] ∧
    fileBlock diskDemo "somedir" = [] :=
  ⟨((c9_export_errors diskDemo ["a.py", "bad.py", "somedir"]).1 "bad.py" "Permission denied"
      (by decide) rfl).1,
   ((c9_export_errors diskDemo ["a.py", "bad.py", "somedir"]).2.1 "a.py" "print(1)"
      (by decide) rfl).1,
   (c9_export_errors diskDemo ["a.py", "bad.py", "somedir"]).2.2 "somedir" rfl⟩

/-- C10: with at least one include or exclude pattern set while the filter
engine's base path is empty (`_refresh_cache` returns before walking), the
visible-files cache is empty and `is_visible` is false for every path. -/
theorem c10_empty_base :
    ∀ (files inc exc : List String) (p : String),
      inc ≠ [] ∨ exc ≠ [] →
      refreshCache "" files inc exc = ∅ ∧
      isVisible inc exc (refreshCache "" files inc exc) p = false := by
  intro files inc exc p h
  have hc : refreshCache "" files inc exc = ∅ := by simp [refreshCache]
  refine ⟨hc, ?_⟩
  rw [hc]
  simp only [isVisible]
  split
  · rename_i hif
    exfalso
    simp only [Bool.and_eq_true, List.isEmpty_iff] at hif
    rcases h with h | h
    · exact h hif.1
    · exact h hif.2
  · simp

/-- C10, witness: include `*.py` with no base path makes `a.py` invisible
and the cache empty. -/
theorem c10_empty_base_witness :
    refreshCache "" ["a.py"] ["*.py"] [] = ∅ ∧
    isVisible ["*.py"] [] (refreshCache "" ["a.py"] ["*.py"] []) "a.py" = false :=
  c10_empty_base ["a.py"] ["*.py"] [] "a.py" (Or.inl (by decide))
